import Mathlib

/-!
# Verification of the Sopel TLD plugin (sopel/modules/tld.py)

A shallow embedding of the TLD-information caching subsystem:

* the record indexer `WikipediaTLDListParser.get_processed_data`
  (post-processing of extracted tables into a keyed record map),
* the cache updater `_update_tld_data` (staleness check, fetch, replace),
* the query resolver `gettld` (normalize, validate, look up, render),
* the lifecycle hook `setup` (defaults and timestamp parsing).

Conventions used throughout:

* Python strings are Lean `String`s, manipulated through their `.data`
  character lists so that every definition reduces in the kernel.
* Python dicts (which preserve insertion order and update values in place
  on key collision) are association lists `List (String × α)` built with
  `dictInsert` / read with `dictGet`.
* Timestamps in the updater model are integral epoch seconds (`Int`);
  `timedelta.days` is floor division of the difference by 86400.
* Fallible operations return `Option` (`none` models a raised exception).
* External collaborators (the HTTP fetchers, `encodings.idna.ToASCII`,
  `tools.get_sendable_message`, the HTML tokenizer feeding the extractor)
  are parameters of the definitions that use them.
-/

/-- ASCII lowercasing of one character, as Python's `str.lower` acts on
ASCII input (the inputs relevant here are ASCII). -/
def charLower (c : Char) : Char :=
  if 'A' ≤ c ∧ c ≤ 'Z' then Char.ofNat (c.toNat + 32) else c

/-- `s.lower()` (restricted to ASCII case mapping). -/
def pyLower (s : String) : String :=
  String.mk (s.data.map charLower)

/-- Python regex whitespace (`\s`) over the ASCII range; `\S` is its
complement. -/
def isPySpace (c : Char) : Bool :=
  c == ' ' || c == '\t' || c == '\n' || c == '\r' || c == '\x0b' || c == '\x0c'

/-- Does `s` start with `pat`?  (List-level so it reduces in the kernel;
models Python's `str.startswith`.) -/
def leadsWith : List Char → List Char → Bool
  | [], _ => true
  | _ :: _, [] => false
  | a :: as, b :: bs => a == b && leadsWith as bs

/-- `s.startswith(pat)`. -/
def strStartsWith (s pat : String) : Bool :=
  leadsWith pat.data s.data

/-- `r_tld = re.compile(r'^\.(\S+)')` applied with `.match(cell)`: the cell
must begin with a dot followed by at least one non-whitespace character;
the captured group is the maximal non-whitespace run after the dot. -/
def r_tld_match (cell : String) : Option String :=
  match cell.data with
  | '.' :: rest =>
    let run := rest.takeWhile (fun c => !(isPySpace c))
    if run.isEmpty then none else some (String.mk run)
  | _ => none

/-- `[A-Za-z0-9]`. -/
def isAsciiAlnum (c : Char) : Bool :=
  ('A' ≤ c && c ≤ 'Z') || ('a' ≤ c && c ≤ 'z') || ('0' ≤ c && c ≤ '9')

/-- `r_idn = re.compile(r'^(xn--[A-Za-z0-9]+)')` applied with
`.match(cell)`: the cell must begin with the literal `xn--` followed by at
least one ASCII alphanumeric; the group is `xn--` plus the maximal
alphanumeric run. -/
def r_idn_match (cell : String) : Option String :=
  match cell.data with
  | 'x' :: 'n' :: '-' :: '-' :: rest =>
    let run := rest.takeWhile isAsciiAlnum
    if run.isEmpty then none else some (String.mk ('x' :: 'n' :: '-' :: '-' :: run))
  | _ => none

/-- Insertion into a Python dict modelled as an association list: an
existing key has its value replaced in place (position preserved), a new
key is appended.  This is exactly CPython's insertion-order semantics. -/
def dictInsert {α : Type} (d : List (String × α)) (k : String) (v : α) :
    List (String × α) :=
  if d.any (fun p => decide (p.1 = k)) then
    d.map (fun p => if p.1 = k then (k, v) else p)
  else d ++ [(k, v)]

/-- `d.get(k, None)` / `d[k]`. -/
def dictGet {α : Type} (d : List (String × α)) (k : String) : Option α :=
  (d.find? (fun p => decide (p.1 = k))).map Prod.snd

/-- `dict(pairs)`: successive `dictInsert`s starting from the empty dict. -/
def pyDict {α : Type} (l : List (String × α)) : List (String × α) :=
  l.foldl (fun d kv => dictInsert d kv.1 kv.2) []

/-- A field → value record, in insertion order. -/
abbrev Record := List (String × String)

/-- The map from lookup key to record built by the indexer. -/
abbrev TldIndex := List (String × Record)

/-- The dict comprehension of `get_processed_data`:
`{field: value for field, value in dict(zip(headings, row)).items()
  if value and value != '—'}`. -/
def buildRecord (headings row : List String) : Record :=
  (pyDict (List.zip headings row)).filter
    (fun fv => !(fv.2 == "") && !(fv.2 == "—"))

/-- The plain lookup key of a row: the first cell matching `r_tld`,
captured group lowercased (`key = tld.group(1).lower()`; first match
wins). -/
def rowKey (row : List String) : Option String :=
  (row.findSome? r_tld_match).map pyLower

/-- The IDNA lookup key of a row: the first cell matching `r_idn`,
lowercased (first match wins). -/
def rowIdnKey (row : List String) : Option String :=
  (row.findSome? r_idn_match).map pyLower

/-- Both keys a row yields, in the order the source stores them. -/
def keysOfRow (row : List String) : List String :=
  (rowKey row).toList ++ (rowIdnKey row).toList

/-- The body of the per-row loop of `get_processed_data`: derive the two
keys; a row with neither key is skipped (with a logged diagnostic);
otherwise the filtered record is stored under the plain key (if any) and
then under the IDNA key (if any) — both entries holding the same record. -/
def processRow (headings : List String) (acc : TldIndex) (row : List String) :
    TldIndex :=
  match rowKey row, rowIdnKey row with
  | none, none => acc
  | some k, none => dictInsert acc k (buildRecord headings row)
  | none, some ik => dictInsert acc ik (buildRecord headings row)
  | some k, some ik =>
    dictInsert (dictInsert acc k (buildRecord headings row)) ik
      (buildRecord headings row)

/-- One iteration of the per-table loop: `headings = table[0]` (an
`IndexError` — modelled as `none` — on an empty table) and the row loop
over `table[1:]`. -/
def processOneTable (acc : TldIndex) : List (List String) → Option TldIndex
  | [] => none
  | headings :: body => some (body.foldl (processRow headings) acc)

/-- `WikipediaTLDListParser.get_processed_data`, acting on the extracted
tables (each table a list of rows, each row a list of cell strings).
`none` models the `IndexError` raised by `table[0]` on an empty table. -/
def get_processed_data (tables : List (List (List String))) : Option TldIndex :=
  tables.foldlM processOneTable []

/-- All lookup keys derived from a table body, in derivation order. -/
def allKeys : List (List String) → List String
  | [] => []
  | row :: rest => keysOfRow row ++ allKeys rest

/-- The plugin's in-memory cache slots (`bot.memory[...]`).  Timestamps
are integral epoch seconds. -/
structure BotMemory where
  tld_list_cache : List String
  tld_list_cache_updated : Int
  tld_data_cache : TldIndex
  tld_data_cache_updated : Int
deriving DecidableEq

/-- Outcome of one HTTP fetch / response decode, as seen by
`_update_tld_data`: `failure` collects `requests.exceptions.RequestException`,
`ValueError` and `KeyError` (network error or undecodable response). -/
inductive FetchResult (α : Type) where
  | success (value : α)
  | failure
deriving DecidableEq

/-- `timedelta.days` for a difference of epoch-second timestamps: floor
division by 86400 (Python's `//`). -/
def timedeltaDays (now updatedAt : Int) : Int :=
  (now - updatedAt).fdiv 86400

/-- `str.splitlines()` restricted to `\n` separators (the only separator
relevant to the IANA list): no trailing empty line is produced. -/
def pySplitlinesAux (cur : List Char) : List Char → List String
  | [] => if cur.isEmpty then [] else [String.mk cur.reverse]
  | c :: rest =>
    if c == '\n' then String.mk cur.reverse :: pySplitlinesAux [] rest
    else pySplitlinesAux (c :: cur) rest

/-- `text.splitlines()`. -/
def pySplitlines (s : String) : List String :=
  pySplitlinesAux [] s.data

/-- `_update_tld_data(bot, which)`.

* `extract` models `WikipediaTLDListParser` fed with the fetched HTML: it
  stands for the tables the streaming extractor accumulates (the HTML
  tokenizer is Python stdlib, an external collaborator).
* `listFetch` / `dataFetch` are the two network fetches (already
  decoded; `failure` covers both network and decode errors, which the
  source catches in its `try` blocks).
* The first component of the result is the memory after the call, `none`
  meaning an exception escaped (only possible from
  `parser.get_processed_data()`, which sits outside the `try` block and
  raises `IndexError` on an empty extracted table).  The second component
  records whether a network fetch was issued (`false` when the staleness
  check skipped the update or the cache kind is unknown). -/
def update_tld_data (extract : String → List (List (List String)))
    (listFetch dataFetch : FetchResult String)
    (mem : BotMemory) (which : String) (now : Int) :
    Option BotMemory × Bool :=
  if which == "list" then
    if timedeltaDays now mem.tld_list_cache_updated < 7 then (some mem, false)
    else
      match listFetch with
      | .failure => (some mem, true)
      | .success text =>
        let tld_list :=
          ((pySplitlines text).filter (fun line => !(strStartsWith line "#"))).map
            pyLower
        (some { mem with
                  tld_list_cache := tld_list,
                  tld_list_cache_updated := now },
         true)
  else if which == "data" then
    if timedeltaDays now mem.tld_data_cache_updated < 7 then (some mem, false)
    else
      match dataFetch with
      | .failure => (some mem, true)
      | .success html =>
        match get_processed_data (extract html) with
        | none => (none, true)
        | some tld_data =>
          (some { mem with
                    tld_data_cache := tld_data,
                    tld_data_cache_updated := now },
           true)
  else (some mem, false)

/-- `s.strip('.')`: Python strips the given character from BOTH ends. -/
def stripDots (s : String) : String :=
  String.mk (((s.data.dropWhile (fun c => c == '.')).reverse.dropWhile
    (fun c => c == '.')).reverse)

/-- The normalization `gettld` applies to the raw argument:
`tld = tld.strip('.').lower()`. -/
def gettld_normalize (raw : String) : String :=
  pyLower (stripDots raw)

/-- Modelled from the spec for comparison with `gettld_normalize`
("Normalize: strip leading dots, lowercase"): remove leading dots only,
then lowercase. -/
def specNormalize_leadingDotsOnly (raw : String) : String :=
  pyLower (String.mk (raw.data.dropWhile (fun c => c == '.')))

/-- `s.startswith('Notes') or s.startswith('Comments')` — the sort key of
the field reordering in `gettld`. -/
def notesOrComments (s : String) : Bool :=
  strStartsWith s "Notes" || strStartsWith s "Comments"

/-- `False < True`, the order Python's `sort` uses on a boolean key. -/
def boolKeyLe (a b : Bool) : Bool := !a || b

/-- Stable insertion of one element into an already-sorted list, by a
boolean key: an element goes before the first strictly-greater key and
after equal keys. -/
def insortByKey (key : String → Bool) (x : String) :
    List String → List String
  | [] => [x]
  | y :: ys =>
    if boolKeyLe (key x) (key y) then x :: y :: ys
    else y :: insortByKey key x ys

/-- `fields.sort(key=...)` with a boolean key: Python's `list.sort` is
stable, modelled by stable insertion sort. -/
def pyStableSortByKey (key : String → Bool) : List String → List String
  | [] => []
  | x :: xs => insortByKey key x (pyStableSortByKey key xs)

/-- The field order `gettld` renders:
`fields = list(record.keys())` followed by
`fields.sort(key=lambda s: s.startswith('Notes') or s.startswith('Comments'))`. -/
def gettldFieldOrder (record : Record) : List String :=
  pyStableSortByKey notesOrComments (record.map Prod.fst)

/-- `" | ".join(items)`. -/
def joinSep (sep : String) : List String → String
  | [] => ""
  | [x] => x
  | x :: y :: xs => x ++ sep ++ joinSep sep (y :: xs)

/-- The rendering tail of `gettld`: reorder fields, emit `"field: value"`
for truthy values, join with `" | "`, and truncate via
`tools.get_sendable_message` (external collaborator `getSendable`,
returning the usable part and the excess). -/
def renderRecord (getSendable : String → String × String) (record : Record) :
    String :=
  let fields := gettldFieldOrder record
  let items := fields.filterMap (fun field =>
    match dictGet record field with
    | some value => if value == "" then none else some (field ++ ": " ++ value)
    | none => none)
  let message := joinSep " | " items
  let parts := getSendable message
  if parts.2 == "" then message else parts.1 ++ " […]"

/-- What `gettld` replies/says, by kind. -/
inductive GettldOutcome where
  | needsInput
  | notRegistered (tld : String)
  | noDetails (tld : String)
  | info (message : String)
  | raised
deriving DecidableEq

/-- Result of one `gettld` invocation: the outcome, the memory afterwards,
and whether the list / data network fetches were issued on the way. -/
structure GettldResult where
  outcome : GettldOutcome
  mem : BotMemory
  listFetchIssued : Bool
  dataFetchIssued : Bool
deriving DecidableEq

/-- The `tld` command body `gettld(bot, trigger)`.

`arg` is `trigger.group(2)`; `toASCII` models `encodings.idna.ToASCII`
(`none` = raised `UnicodeError`); `getSendable` models
`tools.get_sendable_message`; the fetch parameters are threaded to
`_update_tld_data` for the lazy-refresh paths. -/
def gettld (extract : String → List (List (List String)))
    (listFetch dataFetch : FetchResult String)
    (toASCII : String → Option String)
    (getSendable : String → String × String)
    (mem : BotMemory) (arg : Option String) (now : Int) : GettldResult :=
  match arg with
  | none => ⟨.needsInput, mem, false, false⟩
  | some raw =>
    if raw == "" then ⟨.needsInput, mem, false, false⟩
    else
      let tld := gettld_normalize raw
      let afterList :=
        if mem.tld_list_cache == [] then
          update_tld_data extract listFetch dataFetch mem "list" now
        else (some mem, false)
      match afterList with
      | (none, listIssued) => ⟨.raised, mem, listIssued, false⟩
      | (some mem1, listIssued) =>
        match toASCII tld with
        | none => ⟨.raised, mem1, listIssued, false⟩
        | some asciiForm =>
          if mem1.tld_list_cache.contains tld ||
              mem1.tld_list_cache.contains asciiForm then
            let afterData :=
              if mem1.tld_data_cache == [] then
                update_tld_data extract listFetch dataFetch mem1 "data" now
              else (some mem1, false)
            match afterData with
            | (none, dataIssued) => ⟨.raised, mem1, listIssued, dataIssued⟩
            | (some mem2, dataIssued) =>
              match dictGet mem2.tld_data_cache tld with
              | none => ⟨.noDetails tld, mem2, listIssued, dataIssued⟩
              | some record =>
                if record == [] then ⟨.noDetails tld, mem2, listIssued, dataIssued⟩
                else
                  ⟨.info (renderRecord getSendable record), mem2, listIssued,
                    dataIssued⟩
          else ⟨.notRegistered tld, mem1, listIssued, false⟩

/-- A parsed `datetime` (to second precision, all `strptime` gives here). -/
structure PyDateTime where
  year : Nat
  month : Nat
  day : Nat
  hour : Nat
  minute : Nat
  second : Nat
deriving DecidableEq

/-- Value of one ASCII digit. -/
def digitVal (c : Char) : Option Nat :=
  if '0' ≤ c ∧ c ≤ '9' then some (c.toNat - 48) else none

/-- Decimal reading of a fixed digit run. -/
def parseDigits (cs : List Char) : Option Nat :=
  cs.foldlM (fun acc c => (digitVal c).map (fun d => acc * 10 + d)) 0

/-- `datetime.strptime(s, '%Y-%m-%d %H:%M:%S')`: fixed-shape parse with
the field-range validation `strptime` performs; `none` models the raised
`ValueError`. -/
def strptimeDateFormat (s : String) : Option PyDateTime :=
  match s.data with
  | [y1, y2, y3, y4, '-', m1, m2, '-', d1, d2, ' ',
     h1, h2, ':', n1, n2, ':', s1, s2] =>
    match parseDigits [y1, y2, y3, y4], parseDigits [m1, m2],
        parseDigits [d1, d2], parseDigits [h1, h2], parseDigits [n1, n2],
        parseDigits [s1, s2] with
    | some y, some mo, some d, some h, some mi, some se =>
      if 1 ≤ mo ∧ mo ≤ 12 ∧ 1 ≤ d ∧ d ≤ 31 ∧ h ≤ 23 ∧ mi ≤ 59 ∧ se ≤ 61 then
        some ⟨y, mo, d, h, mi, se⟩
      else none
    | _, _, _, _, _, _ => none
  | _ => none

/-- The memory as `setup` leaves it (timestamps restored to `datetime`
objects). -/
structure SetupMemory where
  tld_list_cache : List String
  tld_list_cache_updated : PyDateTime
  tld_data_cache : TldIndex
  tld_data_cache_updated : PyDateTime
deriving DecidableEq

/-- `setup(bot)`: load the four persisted values with the source's
defaults (`[]`, `'2000-01-01 00:00:00'`, `{}`, `'2000-01-01 00:00:00'`),
then parse both timestamp strings with `DATE_FORMAT`.  Each `db*`
parameter is the persisted value, `none` when nothing is persisted;
`none` as result models a `ValueError` escaping from `strptime`. -/
def setup (dbList : Option (List String)) (dbListUpdated : Option String)
    (dbData : Option TldIndex) (dbDataUpdated : Option String) :
    Option SetupMemory :=
  let listCache := dbList.getD []
  let listUpdatedStr := dbListUpdated.getD "2000-01-01 00:00:00"
  let dataCache := dbData.getD []
  let dataUpdatedStr := dbDataUpdated.getD "2000-01-01 00:00:00"
  match strptimeDateFormat listUpdatedStr, strptimeDateFormat dataUpdatedStr with
  | some t1, some t2 => some ⟨listCache, t1, dataCache, t2⟩
  | _, _ => none

example : pySplitlines "A\n#B\nc\n" = ["A", "#B", "c"] := by decide
example :
    update_tld_data (fun _ => []) (.success "A\n#B\nc") .failure
      ⟨[], 0, [], 0⟩ "list" (7 * 86400) =
      (some ⟨["a", "c"], 7 * 86400, [], 0⟩, true) := by decide
example :
    update_tld_data (fun _ => []) (.success "A") .failure
      ⟨[], 0, [], 0⟩ "list" (7 * 86400 - 1) = (some ⟨[], 0, [], 0⟩, false) := by
  decide
example : gettld_normalize "..Ru." = "ru" := by decide
example : strptimeDateFormat "2000-01-01 00:00:00" = some ⟨2000, 1, 1, 0, 0, 0⟩ := by
  decide
example : strptimeDateFormat "2000-13-01 00:00:00" = none := by decide
example :
    setup none none none none = some ⟨[], ⟨2000, 1, 1, 0, 0, 0⟩, [], ⟨2000, 1, 1, 0, 0, 0⟩⟩ := by
  decide
example :
    gettld (fun _ => []) .failure .failure (fun s => some s) (fun m => (m, ""))
      ⟨["ru"], 0, [("ru", [("Sponsor", "X"), ("Notes", "N")])], 0⟩
      (some ".RU") 0 =
      ⟨.info "Sponsor: X | Notes: N", ⟨["ru"], 0, [("ru", [("Sponsor", "X"), ("Notes", "N")])], 0⟩,
        false, false⟩ := by decide
example :
    (gettld (fun _ => []) .failure .failure (fun s => some s) (fun m => (m, ""))
      ⟨["ru"], 0, [("ru", [])], 0⟩ (some "ru") 0).outcome = .noDetails "ru" := by decide
example :
    pyStableSortByKey notesOrComments ["Notes 1", "Sponsor", "Comments", "Entity"] =
      ["Sponsor", "Entity", "Notes 1", "Comments"] := by decide

/-! ## Association-list (Python dict) lemmas -/

theorem dictGet_nil {α : Type} (k : String) :
    dictGet ([] : List (String × α)) k = none := rfl

theorem dictGet_cons {α : Type} (a : String) (v : α) (d : List (String × α))
    (k : String) :
    dictGet ((a, v) :: d) k = if a = k then some v else dictGet d k := by
  simp only [dictGet, List.find?]
  by_cases h : a = k <;> simp [h]

theorem dictGet_eq_none_of_any_false {α : Type} (k : String)
    (d : List (String × α)) (h : d.any (fun p => decide (p.1 = k)) = false) :
    dictGet d k = none := by
  induction d with
  | nil => rfl
  | cons a d ih =>
    obtain ⟨a1, a2⟩ := a
    simp only [List.any_cons, Bool.or_eq_false_iff, decide_eq_false_iff_not] at h
    rw [dictGet_cons]
    simp [h.1, ih (by simpa using h.2)]

theorem dictGet_map_update_ne {α : Type} (k k' : String) (v : α)
    (d : List (String × α)) (hne : k' ≠ k) :
    dictGet (d.map (fun p => if p.1 = k then (k, v) else p)) k' =
      dictGet d k' := by
  induction d with
  | nil => rfl
  | cons a d ih =>
    obtain ⟨a1, a2⟩ := a
    by_cases h : a1 = k
    · subst h
      simp only [List.map_cons, if_pos rfl]
      rw [dictGet_cons, dictGet_cons]
      have h1 : a1 ≠ k' := fun h => hne h.symm
      simp [h1, ih]
    · simp only [List.map_cons, if_neg h]
      rw [dictGet_cons, dictGet_cons]
      by_cases h2 : a1 = k'
      · simp [h2]
      · simp [h2, ih]

theorem dictGet_map_update_eq {α : Type} (k : String) (v : α)
    (d : List (String × α))
    (hany : d.any (fun p => decide (p.1 = k)) = true) :
    dictGet (d.map (fun p => if p.1 = k then (k, v) else p)) k = some v := by
  induction d with
  | nil => simp at hany
  | cons a d ih =>
    obtain ⟨a1, a2⟩ := a
    by_cases h : a1 = k
    · subst h
      simp only [List.map_cons, if_pos rfl]
      rw [dictGet_cons]
      simp
    · simp only [List.any_cons, decide_eq_true_eq, h, decide_False,
        Bool.false_or] at hany
      simp only [List.map_cons, if_neg h]
      rw [dictGet_cons]
      simp [h, ih (by simpa using hany)]

theorem dictGet_append_single {α : Type} (k k' : String) (v : α)
    (d : List (String × α)) :
    dictGet (d ++ [(k, v)]) k' =
      match dictGet d k' with
      | some w => some w
      | none => if k = k' then some v else none := by
  induction d with
  | nil =>
    simp only [List.nil_append, dictGet_nil]
    rw [dictGet_cons]
    rfl
  | cons a d ih =>
    obtain ⟨a1, a2⟩ := a
    rw [List.cons_append, dictGet_cons, dictGet_cons]
    by_cases h : a1 = k'
    · simp [h]
    · simp [h, ih]

theorem dictGet_dictInsert {α : Type} (k k' : String) (v : α)
    (d : List (String × α)) :
    dictGet (dictInsert d k v) k' = if k' = k then some v else dictGet d k' := by
  unfold dictInsert
  by_cases hany : d.any (fun p => decide (p.1 = k)) = true
  · simp only [hany, if_true]
    by_cases hk : k' = k
    · rw [if_pos hk, hk]
      exact dictGet_map_update_eq k v d hany
    · rw [if_neg hk]
      exact dictGet_map_update_ne k k' v d hk
  · have hany' : d.any (fun p => decide (p.1 = k)) = false :=
      Bool.eq_false_iff.mpr hany
    simp only [hany', Bool.false_eq_true, if_false]
    rw [dictGet_append_single]
    by_cases hk : k' = k
    · rw [if_pos hk, hk, dictGet_eq_none_of_any_false k d hany']
      simp
    · cases hdk : dictGet d k' with
      | none =>
        show (if k = k' then some v else none) = if k' = k then some v else none
        rw [if_neg (fun h => hk h.symm), if_neg hk]
      | some w =>
        show some w = if k' = k then some v else some w
        rw [if_neg hk]

/-! ## Indexer fold lemmas -/

theorem dictGet_processRow (h : List String) (acc : TldIndex)
    (row : List String) (k : String) :
    dictGet (processRow h acc row) k =
      if k ∈ keysOfRow row then some (buildRecord h row) else dictGet acc k := by
  unfold processRow keysOfRow
  cases hk : rowKey row with
  | none =>
    cases hik : rowIdnKey row with
    | none => simp
    | some ik =>
      rw [dictGet_dictInsert]
      simp
  | some k1 =>
    cases hik : rowIdnKey row with
    | none =>
      rw [dictGet_dictInsert]
      simp
    | some ik =>
      rw [dictGet_dictInsert, dictGet_dictInsert]
      simp only [Option.toList_some, List.cons_append, List.nil_append,
        List.mem_cons, List.mem_singleton]
      by_cases h2 : k = ik
      · simp [h2]
      · by_cases h1 : k = k1 <;> simp [h1, h2]

theorem dictGet_foldl_of_not_mem (h : List String) (body : List (List String))
    (acc : TldIndex) (k : String) (hk : ∀ row ∈ body, k ∉ keysOfRow row) :
    dictGet (body.foldl (processRow h) acc) k = dictGet acc k := by
  induction body generalizing acc with
  | nil => rfl
  | cons r rest ih =>
    rw [List.foldl_cons, ih _ (fun row hr => hk row (List.mem_cons_of_mem r hr)),
      dictGet_processRow]
    simp [hk r (List.mem_cons_self r rest)]

theorem mem_allKeys (k : String) (body : List (List String)) :
    k ∈ allKeys body ↔ ∃ row ∈ body, k ∈ keysOfRow row := by
  induction body with
  | nil => simp [allKeys]
  | cons r rest ih => simp [allKeys, ih]

theorem dictGet_foldl_of_mem (h : List String) (body : List (List String))
    (acc : TldIndex) (row : List String) (k : String)
    (hnodup : (allKeys body).Nodup) (hrow : row ∈ body)
    (hk : k ∈ keysOfRow row) :
    dictGet (body.foldl (processRow h) acc) k = some (buildRecord h row) := by
  induction body generalizing acc with
  | nil => simp at hrow
  | cons r rest ih =>
    rw [show allKeys (r :: rest) = keysOfRow r ++ allKeys rest from rfl,
      List.nodup_append] at hnodup
    rw [List.foldl_cons]
    rcases List.mem_cons.mp hrow with hEq | hMem
    · subst hEq
      have hnot : ∀ r' ∈ rest, k ∉ keysOfRow r' := by
        intro r' hr' hkr'
        exact hnodup.2.2 hk ((mem_allKeys k rest).mpr ⟨r', hr', hkr'⟩)
      rw [dictGet_foldl_of_not_mem h rest _ k hnot, dictGet_processRow]
      simp [hk]
    · exact ih _ hnodup.2.1 hMem

/-! ## Stable sort lemmas -/

theorem insortByKey_key_false (key : String → Bool) (x : String)
    (l : List String) (hx : key x = false) :
    insortByKey key x l = x :: l := by
  cases l <;> simp [insortByKey, boolKeyLe, hx]

theorem insortByKey_key_true_append (key : String → Bool) (x : String)
    (A B : List String) (hx : key x = true) (hA : ∀ a ∈ A, key a = false) :
    insortByKey key x (A ++ B) = A ++ insortByKey key x B := by
  induction A with
  | nil => rfl
  | cons a A ih =>
    rw [List.cons_append]
    have ha : key a = false := hA a (List.mem_cons_self a A)
    simp only [insortByKey, boolKeyLe, hx, ha]
    simp only [Bool.not_true, Bool.false_or, Bool.false_eq_true, if_false,
      List.cons_append, List.cons.injEq, true_and]
    exact ih (fun b hb => hA b (List.mem_cons_of_mem a hb))

theorem insortByKey_key_true_all_true (key : String → Bool) (x : String)
    (B : List String) (hx : key x = true) (hB : ∀ b ∈ B, key b = true) :
    insortByKey key x B = x :: B := by
  cases B with
  | nil => rfl
  | cons b B =>
    have hb : key b = true := hB b (List.mem_cons_self b B)
    simp [insortByKey, boolKeyLe, hx, hb]

theorem pyStableSortByKey_eq_partition (key : String → Bool)
    (l : List String) :
    pyStableSortByKey key l =
      l.filter (fun s => !(key s)) ++ l.filter key := by
  induction l with
  | nil => rfl
  | cons x xs ih =>
    rw [show pyStableSortByKey key (x :: xs) =
      insortByKey key x (pyStableSortByKey key xs) from rfl, ih]
    by_cases hx : key x = true
    · rw [insortByKey_key_true_append key x _ _ hx
        (fun a ha => by simpa using (List.mem_filter.mp ha).2)]
      rw [insortByKey_key_true_all_true key x _ hx
        (fun b hb => by simpa using (List.mem_filter.mp hb).2)]
      simp [List.filter_cons, hx]
    · have hx' : key x = false := by simpa using hx
      rw [insortByKey_key_false key x _ hx']
      simp [List.filter_cons, hx']

/-! ## Claim C1 -/

/-- C1 (counterexample): the spec claims a row's record is stored "under
every '.suffix' token found in that row"; the code keys only the FIRST
match.  The well-formed two-column table with headings `["TLD", "Info"]`
and single data row `[".ab", ".cd"]` contains the suffix token `cd`
(cell `".cd"` matches `r_tld`), yet the output mapping has no entry under
`"cd"` — only under `"ab"`. -/
theorem tld_C1_counterexample :
    r_tld_match ".cd" = some "cd" ∧
    get_processed_data [[["TLD", "Info"], [".ab", ".cd"]]] =
      some [("ab", [("TLD", ".ab"), ("Info", ".cd")])] ∧
    dictGet [("ab", [("TLD", ".ab"), ("Info", ".cd")])] "cd" = none := by
  decide

/-- C1 (amended): for a well-formed two-column wikitable (heading row of
two field names, data rows of two cells, derived keys pairwise distinct),
running the indexer produces one record per key-yielding data row, stored
under the FIRST '.suffix' token and the FIRST 'xn--' token of that row;
no other key is populated, and no stored record holds an empty or `—`
value. -/
theorem tld_C1_amended (headings : List String) (body : List (List String))
    (hhead : headings.length = 2) (hrows : ∀ row ∈ body, row.length = 2)
    (hnodup : (allKeys body).Nodup) :
    ∃ m, get_processed_data [headings :: body] = some m ∧
      (∀ row ∈ body, ∀ k ∈ keysOfRow row,
        dictGet m k = some (buildRecord headings row)) ∧
      (∀ k, k ∉ allKeys body → dictGet m k = none) ∧
      (∀ row ∈ body, ∀ fv ∈ buildRecord headings row,
        fv.2 ≠ "" ∧ fv.2 ≠ "—") := by
  refine ⟨body.foldl (processRow headings) [], ?_, ?_, ?_, ?_⟩
  · simp [get_processed_data, List.foldlM_cons, processOneTable]
  · intro row hrow k hk
    exact dictGet_foldl_of_mem headings body [] row k hnodup hrow hk
  · intro k hk
    rw [dictGet_foldl_of_not_mem headings body [] k
      (fun row hrow hkr => hk ((mem_allKeys k body).mpr ⟨row, hrow, hkr⟩))]
    rfl
  · intro row hrow fv hfv
    have hp := (List.mem_filter.mp hfv).2
    simp only [Bool.and_eq_true, Bool.not_eq_true', beq_eq_false_iff_ne,
      ne_eq] at hp
    exact ⟨hp.1, hp.2⟩

/-- Witness for `tld_C1_amended` at a concrete well-formed two-column
table. -/
theorem tld_C1_witness :
    ∃ m, get_processed_data [["TLD", "Info"] :: [[".ab", "xn--cd"]]] = some m ∧
      (∀ row ∈ [[".ab", "xn--cd"]], ∀ k ∈ keysOfRow row,
        dictGet m k = some (buildRecord ["TLD", "Info"] row)) ∧
      (∀ k, k ∉ allKeys [[".ab", "xn--cd"]] → dictGet m k = none) ∧
      (∀ row ∈ [[".ab", "xn--cd"]], ∀ fv ∈ buildRecord ["TLD", "Info"] row,
        fv.2 ≠ "" ∧ fv.2 ≠ "—") :=
  tld_C1_amended ["TLD", "Info"] [[".ab", "xn--cd"]] rfl (by decide) (by decide)

/-! ## Claim C4 -/

/-- C4 (counterexample): the row `[".ab", "xn--cd"]` derives both the
plain key `ab` and the IDNA key `xn--cd`, but the final output mapping
does not store the same record contents under both keys: the later row
`[".xn--cd", "y"]` re-derives `xn--cd` as a plain key and overwrites that
entry with its own record. -/
theorem tld_C4_counterexample :
    rowKey [".ab", "xn--cd"] = some "ab" ∧
    rowIdnKey [".ab", "xn--cd"] = some "xn--cd" ∧
    get_processed_data [[["A", "B"], [".ab", "xn--cd"], [".xn--cd", "y"]]] =
      some [("ab", [("A", ".ab"), ("B", "xn--cd")]),
            ("xn--cd", [("A", ".xn--cd"), ("B", "y")])] ∧
    dictGet [("ab", [("A", ".ab"), ("B", "xn--cd")]),
             ("xn--cd", [("A", ".xn--cd"), ("B", "y")])] "ab" ≠
      dictGet [("ab", [("A", ".ab"), ("B", "xn--cd")]),
               ("xn--cd", [("A", ".xn--cd"), ("B", "y")])] "xn--cd" := by
  decide

/-- C4 (amended): when a data row derives both a plain key and an IDNA
key, and no later row of the table re-derives either key, the output
mapping stores the one record built from that row under both keys — the
lookups agree exactly. -/
theorem tld_C4_amended (headings : List String) (pre post : List (List String))
    (row : List String) (k ik : String)
    (hk : rowKey row = some k) (hik : rowIdnKey row = some ik)
    (hpost : ∀ r ∈ post, k ∉ keysOfRow r ∧ ik ∉ keysOfRow r) :
    ∃ m, get_processed_data [headings :: (pre ++ row :: post)] = some m ∧
      dictGet m k = some (buildRecord headings row) ∧
      dictGet m ik = some (buildRecord headings row) ∧
      dictGet m k = dictGet m ik := by
  have hmemk : k ∈ keysOfRow row := by
    unfold keysOfRow
    rw [hk]
    simp
  have hmemik : ik ∈ keysOfRow row := by
    unfold keysOfRow
    rw [hik]
    simp
  refine ⟨(pre ++ row :: post).foldl (processRow headings) [], ?_, ?_, ?_, ?_⟩
  · simp [get_processed_data, List.foldlM_cons, processOneTable]
  · rw [List.foldl_append, List.foldl_cons,
      dictGet_foldl_of_not_mem headings post _ k
        (fun r hr => (hpost r hr).1),
      dictGet_processRow]
    simp [hmemk]
  · rw [List.foldl_append, List.foldl_cons,
      dictGet_foldl_of_not_mem headings post _ ik
        (fun r hr => (hpost r hr).2),
      dictGet_processRow]
    simp [hmemik]
  · rw [List.foldl_append, List.foldl_cons,
      dictGet_foldl_of_not_mem headings post _ k
        (fun r hr => (hpost r hr).1),
      dictGet_foldl_of_not_mem headings post _ ik
        (fun r hr => (hpost r hr).2),
      dictGet_processRow, dictGet_processRow]
    simp [hmemk, hmemik]

/-- Witness for `tld_C4_amended` at a concrete row carrying both keys. -/
theorem tld_C4_witness :
    ∃ m, get_processed_data [["A", "B"] :: ([] ++ [".ab", "xn--cd"] :: [])] =
        some m ∧
      dictGet m "ab" = some (buildRecord ["A", "B"] [".ab", "xn--cd"]) ∧
      dictGet m "xn--cd" = some (buildRecord ["A", "B"] [".ab", "xn--cd"]) ∧
      dictGet m "ab" = dictGet m "xn--cd" :=
  tld_C4_amended ["A", "B"] [] [] [".ab", "xn--cd"] "ab" "xn--cd"
    (by decide) (by decide) (by decide)

/-! ## Claim C5 -/

/-- C5: the field order the resolver renders is a stable partition of the
record's insertion order: the fields whose names start with `Notes` or
`Comments` all move to the back, and inside each of the two groups the
original relative order (given by filtering the insertion order) is
preserved. -/
theorem tld_C5 (record : Record) :
    gettldFieldOrder record =
      (record.map Prod.fst).filter (fun s => !(notesOrComments s)) ++
        (record.map Prod.fst).filter notesOrComments :=
  pyStableSortByKey_eq_partition notesOrComments (record.map Prod.fst)

/-! ## Claim C9 -/

/-- C9: a data row none of whose cells matches `r_tld` or `r_idn` is
skipped: the indexer (a total function here — nothing is raised) returns
exactly the mapping it would return were the row absent, so no entry
derived from that row appears in the output. -/
theorem tld_C9 (tablesPre tablesPost : List (List (List String)))
    (headings : List String) (pre post : List (List String))
    (row : List String)
    (hnone : ∀ cell ∈ row, r_tld_match cell = none ∧ r_idn_match cell = none) :
    get_processed_data
        (tablesPre ++ (headings :: (pre ++ row :: post)) :: tablesPost) =
      get_processed_data
        (tablesPre ++ (headings :: (pre ++ post)) :: tablesPost) := by
  have hkey : rowKey row = none := by
    unfold rowKey
    rw [List.findSome?_eq_none_iff.mpr (fun c hc => (hnone c hc).1)]
    rfl
  have hik : rowIdnKey row = none := by
    unfold rowIdnKey
    rw [List.findSome?_eq_none_iff.mpr (fun c hc => (hnone c hc).2)]
    rfl
  have hskip : ∀ acc, processRow headings acc row = acc := by
    intro acc
    unfold processRow
    rw [hkey, hik]
  have htab : ∀ acc, processOneTable acc (headings :: (pre ++ row :: post)) =
      processOneTable acc (headings :: (pre ++ post)) := by
    intro acc
    simp only [processOneTable, List.foldl_append, List.foldl_cons, hskip]
  unfold get_processed_data
  rw [List.foldlM_append, List.foldlM_append]
  cases hfold : tablesPre.foldlM processOneTable ([] : TldIndex) with
  | none => rfl
  | some acc => simp [List.foldlM_cons, htab acc]

/-- Witness for `tld_C9` at a concrete keyless row. -/
theorem tld_C9_witness :
    get_processed_data [[["A", "B"], ["nokey", "x"]]] =
      get_processed_data [[["A", "B"]]] ∧
    get_processed_data [[["A", "B"], ["nokey", "x"]]] = some [] :=
  ⟨tld_C9 [] [] ["A", "B"] [] [] ["nokey", "x"] (by decide), by decide⟩

/-! ## Cache-update lemmas -/

theorem update_list_fetch_iff (extract : String → List (List (List String)))
    (listFetch dataFetch : FetchResult String) (mem : BotMemory) (now : Int) :
    (update_tld_data extract listFetch dataFetch mem "list" now).2 = true ↔
      7 ≤ timedeltaDays now mem.tld_list_cache_updated := by
  unfold update_tld_data
  rw [if_pos (by decide : (("list" : String) == "list") = true)]
  by_cases h : timedeltaDays now mem.tld_list_cache_updated < 7
  · rw [if_pos h]
    exact iff_of_false (by simp) (by omega)
  · rw [if_neg h]
    cases listFetch <;> exact iff_of_true rfl (by omega)

theorem update_data_fetch_iff (extract : String → List (List (List String)))
    (listFetch dataFetch : FetchResult String) (mem : BotMemory) (now : Int) :
    (update_tld_data extract listFetch dataFetch mem "data" now).2 = true ↔
      7 ≤ timedeltaDays now mem.tld_data_cache_updated := by
  unfold update_tld_data
  rw [if_neg (by decide : ¬ (("data" : String) == "list") = true),
    if_pos (by decide : (("data" : String) == "data") = true)]
  by_cases h : timedeltaDays now mem.tld_data_cache_updated < 7
  · rw [if_pos h]
    exact iff_of_false (by simp) (by omega)
  · rw [if_neg h]
    cases dataFetch with
    | failure => exact iff_of_true rfl (by omega)
    | success html =>
      dsimp only
      cases get_processed_data (extract html) <;>
        exact iff_of_true rfl (by omega)

/-! ## Claim C2 -/

/-- C2: when both fetches fail (network error or undecodable response),
`_update_tld_data` returns normally — for any cache kind — with the
memory, including the cached dataset and its timestamp, exactly as it
was.  (`some mem` is both "no exception escaped" and "nothing changed".) -/
theorem tld_C2 (extract : String → List (List (List String)))
    (mem : BotMemory) (which : String) (now : Int) :
    (update_tld_data extract .failure .failure mem which now).1 = some mem := by
  unfold update_tld_data
  by_cases h1 : ((which == "list") = true)
  · rw [if_pos h1]
    by_cases h : timedeltaDays now mem.tld_list_cache_updated < 7
    · rw [if_pos h]
    · rw [if_neg h]
  · rw [if_neg h1]
    by_cases h2 : ((which == "data") = true)
    · rw [if_pos h2]
      by_cases h : timedeltaDays now mem.tld_data_cache_updated < 7
      · rw [if_pos h]
      · rw [if_neg h]
    · rw [if_neg h2]

/-! ## Claim C3 -/

/-- C3: for both cache kinds, `_update_tld_data` proceeds to the fetch
(rather than skipping) exactly when `(now - updatedAt).days >= 7`, the
day count being floor division of the elapsed seconds by 86400. -/
theorem tld_C3 (extract : String → List (List (List String)))
    (listFetch dataFetch : FetchResult String) (mem : BotMemory)
    (which : String) (now : Int)
    (hw : which = "list" ∨ which = "data") :
    (update_tld_data extract listFetch dataFetch mem which now).2 = true ↔
      7 ≤ timedeltaDays now
        (if which = "list" then mem.tld_list_cache_updated
         else mem.tld_data_cache_updated) := by
  rcases hw with h | h <;> subst h
  · rw [if_pos rfl]
    exact update_list_fetch_iff extract listFetch dataFetch mem now
  · rw [if_neg (by decide : ¬ ("data" : String) = "list")]
    exact update_data_fetch_iff extract listFetch dataFetch mem now

/-- Witness for `tld_C3`: a cache exactly 6 days old is skipped; a cache
exactly 7 days old is fetched. -/
theorem tld_C3_witness :
    ((update_tld_data (fun _ => []) (.success "") (.success "")
        ⟨[], 0, [], 0⟩ "list" (6 * 86400)).2 = false) ∧
    ((update_tld_data (fun _ => []) (.success "") (.success "")
        ⟨[], 0, [], 0⟩ "list" (7 * 86400)).2 = true) :=
  ⟨by decide,
   (tld_C3 (fun _ => []) (.success "") (.success "") ⟨[], 0, [], 0⟩ "list"
      (7 * 86400) (Or.inl rfl)).mpr (by decide)⟩

/-! ## Claim C8 -/

theorem gettld_listIssued_eq (extract : String → List (List (List String)))
    (listFetch dataFetch : FetchResult String) (toASCII : String → Option String)
    (getSendable : String → String × String) (mem : BotMemory) (raw : String)
    (now : Int) (hraw : raw ≠ "") (hempty : mem.tld_list_cache = []) :
    (gettld extract listFetch dataFetch toASCII getSendable mem (some raw)
        now).listFetchIssued =
      (update_tld_data extract listFetch dataFetch mem "list" now).2 := by
  simp only [gettld]
  rw [if_neg (by simp [hraw] : ¬ ((raw == "") = true))]
  rw [if_pos (by rw [hempty]; rfl : ((mem.tld_list_cache == []) = true))]
  rcases hu : update_tld_data extract listFetch dataFetch mem "list" now
    with ⟨o, b⟩
  cases o with
  | none => rfl
  | some mem1 =>
    dsimp only
    cases toASCII (gettld_normalize raw) with
    | none => rfl
    | some asciiForm =>
      dsimp only
      repeat' split
      all_goals rfl

/-- C8 (counterexample): with an empty suffix-list cache whose timestamp
is current (0 days old), `gettld` calls the updater but NO network fetch
is issued — the staleness check inside `_update_tld_data` skips it, even
though the fetch (here primed to succeed) would have repopulated the
cache. -/
theorem tld_C8_counterexample :
    (⟨[], 0, [], 0⟩ : BotMemory).tld_list_cache = [] ∧
    (gettld (fun _ => []) (.success "ru") (.success "") (fun s => some s)
        (fun m => (m, "")) ⟨[], 0, [], 0⟩ (some "ru") 0).listFetchIssued =
      false := by
  decide

/-- C8 (amended): when the suffix-list cache is empty at the time of a
resolver call with a non-empty token, the update operation is invoked,
but the network fetch is issued precisely when the list dataset is stale
(at least 7 days old) — an empty cache with a fresh timestamp fetches
nothing. -/
theorem tld_C8_amended (extract : String → List (List (List String)))
    (listFetch dataFetch : FetchResult String)
    (toASCII : String → Option String) (getSendable : String → String × String)
    (mem : BotMemory) (raw : String) (now : Int)
    (hraw : raw ≠ "") (hempty : mem.tld_list_cache = []) :
    (gettld extract listFetch dataFetch toASCII getSendable mem (some raw)
        now).listFetchIssued = true ↔
      7 ≤ timedeltaDays now mem.tld_list_cache_updated := by
  rw [gettld_listIssued_eq extract listFetch dataFetch toASCII getSendable mem
    raw now hraw hempty]
  exact update_list_fetch_iff extract listFetch dataFetch mem now

/-- Witness for `tld_C8_amended`: empty list cache, 7-day-old timestamp —
the fetch is issued. -/
theorem tld_C8_witness :
    (gettld (fun _ => []) (.success "ru") (.success "") (fun s => some s)
        (fun m => (m, "")) ⟨[], 0, [], 0⟩ (some "ru")
        (7 * 86400)).listFetchIssued = true :=
  (tld_C8_amended (fun _ => []) (.success "ru") (.success "") (fun s => some s)
    (fun m => (m, "")) ⟨[], 0, [], 0⟩ "ru" (7 * 86400) (by decide) rfl).mpr
    (by decide)

/-! ## Claim C10 -/

/-- C10: if the validated, normalized token maps to an EMPTY record in
the data cache, the resolver takes the very same `'exists, but no
details could be found'` branch it takes when the token is absent from
the cache (Python's `if not record:` treats `{}` and `None` alike), and
renders no field line. -/
theorem tld_C10 (extract : String → List (List (List String)))
    (listFetch dataFetch : FetchResult String)
    (toASCII : String → Option String) (getSendable : String → String × String)
    (mem : BotMemory) (raw : String) (now : Int) (asciiForm : String)
    (hraw : raw ≠ "")
    (hlist : mem.tld_list_cache ≠ [])
    (htoA : toASCII (gettld_normalize raw) = some asciiForm)
    (hvalid : (mem.tld_list_cache.contains (gettld_normalize raw) ||
      mem.tld_list_cache.contains asciiForm) = true)
    (hdata : mem.tld_data_cache ≠ [])
    (hrec : dictGet mem.tld_data_cache (gettld_normalize raw) = some [] ∨
      dictGet mem.tld_data_cache (gettld_normalize raw) = none) :
    (gettld extract listFetch dataFetch toASCII getSendable mem (some raw)
        now).outcome = GettldOutcome.noDetails (gettld_normalize raw) := by
  simp only [gettld]
  rw [if_neg (by simp [hraw] : ¬ ((raw == "") = true))]
  rw [if_neg (by simp [hlist] : ¬ ((mem.tld_list_cache == []) = true))]
  dsimp only
  rw [htoA]
  dsimp only
  rw [if_pos hvalid]
  rw [if_neg (by simp [hdata] : ¬ ((mem.tld_data_cache == []) = true))]
  dsimp only
  rcases hrec with h | h <;> rw [h] <;> rfl

/-- Witness for `tld_C10` at a concrete cache mapping `ru` to the empty
record. -/
theorem tld_C10_witness :
    (gettld (fun _ => []) .failure .failure (fun s => some s)
        (fun m => (m, "")) ⟨["ru"], 0, [("ru", [])], 0⟩ (some "ru")
        0).outcome = GettldOutcome.noDetails (gettld_normalize "ru") :=
  tld_C10 (fun _ => []) .failure .failure (fun s => some s) (fun m => (m, ""))
    ⟨["ru"], 0, [("ru", [])], 0⟩ "ru" 0 "ru" (by decide) (by decide)
    (by decide) (by decide) (by decide) (Or.inl (by decide))

/-! ## Claim C6 -/

theorem head?_dropWhile_false {α : Type} (p : α → Bool) (l : List α) (c : α)
    (h : (l.dropWhile p).head? = some c) : p c = false := by
  induction l with
  | nil => simp [List.dropWhile] at h
  | cons a l ih =>
    rw [List.dropWhile_cons] at h
    by_cases hp : p a = true
    · rw [if_pos hp] at h
      exact ih h
    · rw [if_neg hp] at h
      simp only [List.head?_cons, Option.some.injEq] at h
      subst h
      exact Bool.eq_false_iff.mpr hp

/-- C6 (counterexample): `gettld` normalizes with `tld.strip('.')`, which
removes trailing dots as well; the claim's "leading dots removed, other
characters preserved" normalization disagrees on `"Ru."`. -/
theorem tld_C6_counterexample :
    gettld_normalize "Ru." = "ru" ∧
    specNormalize_leadingDotsOnly "Ru." = "ru." ∧
    gettld_normalize "Ru." ≠ specNormalize_leadingDotsOnly "Ru." := by
  decide

theorem strip_middle (p : Char → Bool) (l : List Char) :
    l.dropWhile p = ((l.dropWhile p).reverse.dropWhile p).reverse ++
      ((l.dropWhile p).reverse.takeWhile p).reverse := by
  conv_lhs =>
    rw [← List.reverse_reverse (List.dropWhile p l),
      ← List.takeWhile_append_dropWhile (p := p)
        (l := (List.dropWhile p l).reverse)]
  rw [List.reverse_append]

theorem strip_decomposition (p : Char → Bool) (l : List Char) :
    l = l.takeWhile p ++ (((l.dropWhile p).reverse.dropWhile p).reverse ++
      ((l.dropWhile p).reverse.takeWhile p).reverse) := by
  conv_lhs => rw [← List.takeWhile_append_dropWhile (p := p) (l := l),
    strip_middle p l]

/-- C6 (amended): the normalized token `gettld` uses equals the raw token
with its leading AND trailing dots removed and the remaining core (which
neither starts nor ends with a dot) lowercased. -/
theorem tld_C6_amended (raw : String) :
    ∃ core n m,
      raw.data = List.replicate n '.' ++ (core ++ List.replicate m '.') ∧
      (∀ c, core.head? = some c → c ≠ '.') ∧
      (∀ c, core.getLast? = some c → c ≠ '.') ∧
      gettld_normalize raw = pyLower (String.mk core) := by
  refine ⟨((raw.data.dropWhile (fun c => c == '.')).reverse.dropWhile
      (fun c => c == '.')).reverse,
    (raw.data.takeWhile (fun c => c == '.')).length,
    ((raw.data.dropWhile (fun c => c == '.')).reverse.takeWhile
      (fun c => c == '.')).length, ?_, ?_, ?_, rfl⟩
  · have hlead : raw.data.takeWhile (fun c => c == '.') =
        List.replicate (raw.data.takeWhile (fun c => c == '.')).length '.' := by
      apply List.eq_replicate_of_mem
      intro b hb
      simpa using List.mem_takeWhile_imp hb
    have htrail : ((raw.data.dropWhile (fun c => c == '.')).reverse.takeWhile
        (fun c => c == '.')).reverse =
        List.replicate
          ((raw.data.dropWhile (fun c => c == '.')).reverse.takeWhile
            (fun c => c == '.')).length '.' := by
      conv_lhs =>
        rw [show ((raw.data.dropWhile (fun c => c == '.')).reverse.takeWhile
            (fun c => c == '.')) =
            List.replicate
              ((raw.data.dropWhile (fun c => c == '.')).reverse.takeWhile
                (fun c => c == '.')).length '.' from
          List.eq_replicate_of_mem
            (fun b hb => by simpa using List.mem_takeWhile_imp hb)]
      rw [List.reverse_replicate]
    have hdec := strip_decomposition (fun c => c == '.') raw.data
    rw [htrail] at hdec
    conv_rhs at hdec => rw [hlead]
    exact hdec
  · intro c hc hdot
    subst hdot
    have hmid := strip_middle (fun c => c == '.') raw.data
    have hne : ((raw.data.dropWhile (fun c => c == '.')).reverse.dropWhile
        (fun c => c == '.')).reverse ≠ [] := by
      intro h
      rw [h] at hc
      exact Option.noConfusion hc
    have hd : (raw.data.dropWhile (fun c => c == '.')).head? = some '.' := by
      rw [hmid, List.head?_append_of_ne_nil _ hne]
      exact hc
    have := head?_dropWhile_false (fun c => c == '.') raw.data '.' hd
    simp at this
  · intro c hc hdot
    subst hdot
    rw [← List.head?_reverse, List.reverse_reverse] at hc
    have := head?_dropWhile_false (fun c => c == '.')
      (raw.data.dropWhile (fun c => c == '.')).reverse '.' hc
    simp at this

/-! ## Claim C7 -/

/-- C7 (counterexample): the default timestamp string `setup` supplies
when nothing is persisted parses to the year 2000 — the source's literal
is `'2000-01-01 00:00:00'`, not a 1970-era epoch string. -/
theorem tld_C7_counterexample :
    ((setup none none none none).map
      (fun m => m.tld_list_cache_updated.year) = some 2000) ∧
    ((setup none none none none).map
      (fun m => m.tld_data_cache_updated.year) = some 2000) ∧
    (2000 : Nat) ≠ 1970 := by
  decide

/-- C7 (amended): with no persisted values, `setup` loads the empty list,
the empty mapping, and for both timestamps the fixed default string
`'2000-01-01 00:00:00'` (year 2000) in `YYYY-MM-DD HH:MM:SS` format,
successfully parsed into a timestamp value. -/
theorem tld_C7_amended :
    setup none none none none =
      some ⟨[], ⟨2000, 1, 1, 0, 0, 0⟩, [], ⟨2000, 1, 1, 0, 0, 0⟩⟩ ∧
    strptimeDateFormat "2000-01-01 00:00:00" = some ⟨2000, 1, 1, 0, 0, 0⟩ := by
  decide

example : r_tld_match ".ru" = some "ru" := by decide
example : r_tld_match ".ab cd" = some "ab" := by decide
example : r_tld_match "ru" = none := by decide
example : r_tld_match "." = none := by decide
example : r_idn_match "xn--p1ai" = some "xn--p1ai" := by decide
example : r_idn_match "xn--p1ai.stuff" = some "xn--p1ai" := by decide
example : r_idn_match "xn--" = none := by decide
example : r_idn_match ".xn--p1ai" = none := by decide
example : pyLower "RuF" = "ruf" := by decide
example :
    get_processed_data [[["TLD", "Info"], [".ab", "xn--cd"]]] =
      some [("ab", [("TLD", ".ab"), ("Info", "xn--cd")]),
            ("xn--cd", [("TLD", ".ab"), ("Info", "xn--cd")])] := by decide
example :
    get_processed_data [[["TLD", "Info"], [".ab", "—"]]] =
      some [("ab", [("TLD", ".ab")])] := by decide
